import Mathlib

/-!
Verification development for the AI-Job-Market-Dashboard aggregation pipeline
(`src/hello.py`).  The script loads a tabular dataset of AI job postings,
coerces the salary and date columns, derives posting year/month and a
deadline-span column, and computes a fixed set of aggregates (filters,
grouped means, top-N rankings, describe statistics) for rendering.

The embedding below models the dataset as a `List` of rows.  pandas missing
values (`NaN` / `NaT`) are modelled as `Option.none`; `pd.to_numeric(...,
errors='coerce')` and `pd.to_datetime(..., errors='coerce')` are modelled by
total parsers returning `Option`.  Rational numbers stand for the float
values of the salary column (all arithmetic the claims mention is exact).
-/

namespace AIJobs

/-- A raw input row, before the type-coercion pass of `hello.py` lines 15-19.
Cells absent from the CSV are `none`.  Only the columns the verified
aggregates read are modelled; presentation-only columns are omitted. -/
structure RawRow where
  job_title : String
  company_location : String
  experience_level : String
  industry : String
  required_skills : Option String
  salary_usd : Option String
  posting_date : Option String
  application_deadline : Option String
deriving Repr, DecidableEq

/-- A calendar date, the model of a parsed `pd.Timestamp` at midnight. -/
structure Date where
  y : Nat
  m : Nat
  d : Nat
deriving Repr, DecidableEq

/-- Parses a nonempty all-digit character list as a natural number. -/
def parseNatDigits : List Char → Option Nat
  | [] => none
  | l =>
    if l.all Char.isDigit then
      some (l.foldl (fun a c => a * 10 + (c.toNat - 48)) 0)
    else none

/-- Parses an unsigned decimal literal `d+` or `d+.d+` as a rational. -/
def parseUnsigned (l : List Char) : Option Rat :=
  let ip := l.takeWhile (fun c => c ≠ '.')
  match l.dropWhile (fun c => c ≠ '.') with
  | [] => (parseNatDigits ip).map (fun n => (n : Rat))
  | _ :: fp =>
    match parseNatDigits ip, parseNatDigits fp with
    | some n, some f => some ((n : Rat) + (f : Rat) / ((10 : Rat) ^ fp.length))
    | _, _ => none

/-- Python `str.strip()` on the character list: drop whitespace from both
ends. -/
def stripChars (l : List Char) : List Char :=
  (((l.dropWhile Char.isWhitespace).reverse).dropWhile Char.isWhitespace).reverse

/-- Splitting a character list at every occurrence of a separator
character; Python `str.split(sep)` for a one-character separator. -/
def splitOnChar (sep : Char) : List Char → List (List Char)
  | [] => [[]]
  | c :: rest =>
    match splitOnChar sep rest with
    | [] => [[]]
    | t :: ts => if c = sep then [] :: t :: ts else (c :: t) :: ts

/-- Model of `pd.to_numeric(x, errors='coerce')` on one cell: an optionally
signed decimal literal (surrounding whitespace ignored) parses to its
value, anything else coerces to missing.  (The real accepted grammar is
wider - scientific notation etc. - but the claims only depend on
unparseable cells becoming missing.) -/
def parseNum (s : String) : Option Rat :=
  match stripChars s.toList with
  | '-' :: rest => (parseUnsigned rest).map (fun q => -q)
  | l => parseUnsigned l

/-- Whether `y` is a leap year (Gregorian). -/
def isLeap (y : Nat) : Bool :=
  y % 4 == 0 && (y % 100 != 0 || y % 400 == 0)

/-- Number of days in month `m` of year `y`. -/
def daysInMonth (y m : Nat) : Nat :=
  if m = 2 then (if isLeap y then 29 else 28)
  else if m = 4 ∨ m = 6 ∨ m = 9 ∨ m = 11 then 30
  else 31

/-- Model of `pd.to_datetime(x, errors='coerce')` on one cell: an ISO
`YYYY-MM-DD` string parses to a date, anything else coerces to missing. -/
def parseDate (s : String) : Option Date :=
  match splitOnChar '-' (stripChars s.toList) with
  | [ys, ms, ds] =>
    match parseNatDigits ys, parseNatDigits ms, parseNatDigits ds with
    | some y, some m, some d =>
      if 1 ≤ m ∧ m ≤ 12 ∧ 1 ≤ d ∧ d ≤ daysInMonth y m then some ⟨y, m, d⟩
      else none
    | _, _, _ => none
  | _ => none

/-- Day number of a date (days since 1970-01-01, Gregorian civil
calculation); timestamp subtraction `.dt.days` is the difference of these. -/
def toDayNumber (dt : Date) : Int :=
  let yy : Int := if dt.m ≤ 2 then (dt.y : Int) - 1 else (dt.y : Int)
  let era : Int := Int.fdiv yy 400
  let yoe : Int := yy - era * 400
  let mp : Nat := (dt.m + 9) % 12
  let doy : Nat := (153 * mp + 2) / 5 + dt.d - 1
  let doe : Int := yoe * 365 + Int.fdiv yoe 4 - Int.fdiv yoe 100 + (doy : Int)
  era * 146097 + doe - 719468

/-- A typed row, after the coercion/derivation pass.  `deadline_days` is the
column written at line 187 of `hello.py`; before that write it does not
exist, modelled as `none` for every row. -/
structure Row where
  job_title : String
  company_location : String
  experience_level : String
  industry : String
  required_skills : Option String
  salary_usd : Option Rat
  posting_date : Option Date
  application_deadline : Option Date
  posting_year : Option Nat
  posting_month : Option Nat
  deadline_days : Option Int
deriving Repr, DecidableEq

/-- The per-row type-coercion and year/month derivation (lines 15-19):
salary via `to_numeric` coerce, the two dates via `to_datetime` coerce,
`posting_year`/`posting_month` via `.dt.year`/`.dt.month` (missing when the
date is `NaT`). -/
def coerceRow (rr : RawRow) : Row :=
  let pd := rr.posting_date.bind parseDate
  { job_title := rr.job_title
    company_location := rr.company_location
    experience_level := rr.experience_level
    industry := rr.industry
    required_skills := rr.required_skills
    salary_usd := rr.salary_usd.bind parseNum
    posting_date := pd
    application_deadline := rr.application_deadline.bind parseDate
    posting_year := pd.map Date.y
    posting_month := pd.map Date.m
    deadline_days := none }

/-- The dataset-level coercion pass (`df` after lines 15-19). -/
def coerceTypes (raw : List RawRow) : List Row :=
  raw.map coerceRow

/-- The deadline-span derivation for one row:
`(application_deadline - posting_date).dt.days`, missing when either date
is missing. -/
def deadlineSpan (r : Row) : Option Int :=
  match r.application_deadline, r.posting_date with
  | some d2, some d1 => some (toDayNumber d2 - toDayNumber d1)
  | _, _ => none

/-- The mid-run column write `df["deadline_days"] = ...` (line 187):
returns the dataset with the derived column filled in on every row. -/
def addDeadlineDays (rows : List Row) : List Row :=
  rows.map (fun r => { r with deadline_days := deadlineSpan r })

/-- One row fully ingested: coercion plus all three derived fields computed
together at ingestion time. -/
def ingestFullRow (rr : RawRow) : Row :=
  let r := coerceRow rr
  { r with deadline_days := deadlineSpan r }

/-! ## Aggregation operations -/

/-- The distinct values of a list, keeping the first occurrence of each, in
first-occurrence order (the key order a pandas hashtable produces). -/
def distincts {α : Type} [DecidableEq α] : List α → List α
  | [] => []
  | x :: xs => x :: (distincts xs).filter (fun y => decide (y ≠ x))

/-- Skip-NA arithmetic mean of a column of optional values, the reduction
pandas `mean()` applies: missing entries are dropped, the mean of the rest
is taken, and an all-missing column yields missing (`NaN`). -/
def meanOpt (l : List (Option Rat)) : Option Rat :=
  let xs := l.filterMap id
  if xs = [] then none else some (xs.sum / (xs.length : Rat))

/-- Model of `rows.groupby(key)[val].mean()`: rows whose key is missing are
dropped (pandas `dropna=True`); each remaining distinct key becomes one
group whose value is the skip-NA mean of `val` over the group's rows.
pandas additionally sorts the group keys (`sort=True`); key order is
irrelevant to every property below, so groups are kept in first-occurrence
order here. -/
def meanBy {ρ κ : Type} [DecidableEq κ] (rows : List ρ) (key : ρ → Option κ)
    (val : ρ → Option Rat) : List (κ × Option Rat) :=
  (distincts (rows.filterMap key)).map
    (fun k => (k, meanOpt ((rows.filter (fun r => decide (key r = some k))).map val)))

/-- Model of `rows.groupby(key).size()`: group sizes per distinct
non-missing key (same key-order caveat as `meanBy`). -/
def groupCountBy {ρ κ : Type} [DecidableEq κ] (rows : List ρ) (key : ρ → Option κ) :
    List (κ × Nat) :=
  (distincts (rows.filterMap key)).map
    (fun k => (k, (rows.filter (fun r => decide (key r = some k))).length))

/-- The salary-floor filter `df[df["salary_usd"] >= salary_min]` (line 28):
a row passes iff its salary is present and at least the threshold (a
missing salary compares `False` against any threshold in pandas). -/
def filterBySalaryFloor (rows : List Row) (t : Rat) : List Row :=
  rows.filter (fun r =>
    match r.salary_usd with
    | some s => decide (t ≤ s)
    | none => false)

/-- Skip-NA maximum of a list of rationals (`Series.max()` over the present
values); `none` for the empty list (pandas returns `NaN`). -/
def listMax? : List Rat → Option Rat
  | [] => none
  | x :: xs => some (xs.foldl max x)

/-- Maximum of the salary column, skipping missing values. -/
def salaryMax (rows : List Row) : Option Rat :=
  listMax? (rows.filterMap Row.salary_usd)

/-- Outcome of the salary-threshold section (lines 30-36): one of the two
user-visible warnings, or a histogram over the filtered rows. -/
inductive SalaryOutput where
  | aboveAll : SalaryOutput
  | noJobs : SalaryOutput
  | chart : List Row → SalaryOutput
deriving Repr, DecidableEq

/-- The branch structure of lines 30-36: warn when the threshold strictly
exceeds the column maximum (a comparison against a `NaN` maximum is
`False`), otherwise warn when the filtered frame is empty, otherwise render
the histogram of the filtered rows. -/
def salarySection (rows : List Row) (t : Rat) : SalaryOutput :=
  let cond : Bool :=
    match salaryMax rows with
    | some m => decide (m < t)
    | none => false
  if cond then .aboveAll
  else if filterBySalaryFloor rows t = [] then .noJobs
  else .chart (filterBySalaryFloor rows t)

/-! ## Top-N rankings

`value_counts().head(n)` and `Counter(...).most_common(n)` both rank the
distinct values of a sequence by occurrence count, descending, with ties in
first-occurrence order (both are stable sorts over keys produced in
first-occurrence order).  A stable sort by descending count over
first-occurrence-ordered distinct values is extensionally the sort by the
lexicographic key (count descending, first-occurrence index ascending),
which is how it is embedded here. -/

/-- The ranking order `value_counts` sorts by: strictly larger count first;
on equal counts, smaller first-occurrence index first. -/
def vcRel {α : Type} [DecidableEq α] (vals : List α) (a b : α) : Prop :=
  vals.count b < vals.count a ∨
    (vals.count a = vals.count b ∧ vals.indexOf a ≤ vals.indexOf b)

instance {α : Type} [DecidableEq α] (vals : List α) : DecidableRel (vcRel vals) :=
  fun a b => by unfold vcRel; infer_instance

instance vcRel_total {α : Type} [DecidableEq α] (vals : List α) :
    IsTotal α (vcRel vals) where
  total a b := by
    unfold vcRel
    rcases Nat.lt_trichotomy (vals.count a) (vals.count b) with h | h | h
    · exact Or.inr (Or.inl h)
    · rcases Nat.le_total (vals.indexOf a) (vals.indexOf b) with h' | h'
      · exact Or.inl (Or.inr ⟨h, h'⟩)
      · exact Or.inr (Or.inr ⟨h.symm, h'⟩)
    · exact Or.inl (Or.inl h)

instance vcRel_trans {α : Type} [DecidableEq α] (vals : List α) :
    IsTrans α (vcRel vals) where
  trans a b c hab hbc := by
    unfold vcRel at hab hbc ⊢
    rcases hab with h1 | ⟨h1, h1i⟩ <;> rcases hbc with h2 | ⟨h2, h2i⟩
    · exact Or.inl (lt_trans h2 h1)
    · exact Or.inl (by omega)
    · exact Or.inl (by omega)
    · exact Or.inr ⟨by omega, le_trans h1i h2i⟩

/-- The ranked distinct values of a sequence (the index of
`value_counts()`, or the keys of `Counter(...).most_common()`). -/
def rankedValues {α : Type} [DecidableEq α] (vals : List α) : List α :=
  List.insertionSort (vcRel vals) (distincts vals)

/-- Model of `topN`: the first `n` ranked distinct values
(`value_counts().head(n)` / `most_common(n)`). -/
def topNVals {α : Type} [DecidableEq α] (vals : List α) (n : Nat) : List α :=
  (rankedValues vals).take n

/-- The top-10 job titles (line 40). -/
def top_titles (rows : List Row) : List String :=
  topNVals (rows.map Row.job_title) 10

/-- The top-10 company locations (line 41). -/
def top_locations (rows : List Row) : List String :=
  topNVals (rows.map Row.company_location) 10

/-- The restriction of the dataset to the top titles and locations
(line 42). -/
def top_data (rows : List Row) : List Row :=
  rows.filter (fun r =>
    decide (r.job_title ∈ top_titles rows ∧ r.company_location ∈ top_locations rows))

/-- Model of `pivot_table(index=rk, columns=ck, values=..., aggfunc="mean")`
(line 45): a cell per (row key, column key) pair holding the skip-NA mean
of the matching rows' values; a cell with no non-missing match is an
explicit missing cell (`NaN`), distinct from zero.  (pandas additionally
prunes all-NaN grid rows/columns, `dropna=True`; no claim depends on grid
pruning, so the full grid is kept.) -/
def pivotMean {ρ κ₁ κ₂ : Type} [DecidableEq κ₁] [DecidableEq κ₂]
    (rows : List ρ) (rk : ρ → κ₁) (ck : ρ → κ₂) (val : ρ → Option Rat) :
    List (κ₁ × κ₂ × Option Rat) :=
  (distincts (rows.map rk)).flatMap (fun i =>
    (distincts (rows.map ck)).map (fun j =>
      (i, j, meanOpt ((rows.filter (fun r => decide (rk r = i ∧ ck r = j))).map val))))

/-- The annotated-heatmap pivot of line 45: mean salary by job title and
company location over the top-data subset. -/
def heatmap_df (rows : List Row) : List (String × String × Option Rat) :=
  pivotMean (top_data rows) Row.job_title Row.company_location Row.salary_usd

/-! ## Skill tokenization -/

/-- Python `str.strip()`. -/
def pyStrip (s : String) : String :=
  String.mk (stripChars s.toList)

/-- A string with no leading and no trailing whitespace (the postcondition
of `str.strip()`). -/
def NoEdgeWS (s : String) : Prop :=
  (∀ c, s.toList.head? = some c → c.isWhitespace = false) ∧
  (∀ c, s.toList.getLast? = some c → c.isWhitespace = false)

/-- The tokenization of lines 87-88 feeding the skill-frequency ranking:
`re.split(r',\s*', x)` then `.strip()` then dropping falsy (empty) tokens.
Splitting at `,\s*` and then stripping each token gives the same tokens as
splitting at `,` and stripping (the `\s*` only consumes whitespace that
`strip` would remove), so it is embedded as split-strip-filter. -/
def skillFreqTokens (s : String) : List String :=
  ((splitOnChar ',' s.toList).map (fun t => pyStrip (String.mk t))).filter
    (fun t => decide (t ≠ ""))

/-- The tokenization of line 96 feeding the salary-by-skill explode:
`[s.strip() for s in x.split(",")]` - tokens are stripped but empty tokens
are kept. -/
def skillSalaryTokens (s : String) : List String :=
  (splitOnChar ',' s.toList).map (fun t => pyStrip (String.mk t))

/-- The flattened skill list of lines 87-88 (`all_skills`): rows with a
missing `required_skills` cell are dropped (`dropna()`), the rest are
tokenized and concatenated. -/
def all_skills (rows : List Row) : List String :=
  (rows.filterMap Row.required_skills).flatMap skillFreqTokens

/-- The top-15 skill ranking of line 89 (`Counter(...).most_common(15)`),
keeping only the ranked skills (counts are recoverable via `List.count`). -/
def skill_counts (rows : List Row) : List String :=
  topNVals (all_skills rows) 15

/-- One exploded (salary, skill) pair list: lines 95-97.  Rows missing
either salary or skills are dropped (`dropna()` on the two-column frame),
then each row is replicated once per token of line 96's tokenization. -/
def exploded_skills (rows : List Row) : List (Rat × String) :=
  (rows.filterMap (fun r =>
    match r.salary_usd, r.required_skills with
    | some s, some sk => some (s, sk)
    | _, _ => none)).flatMap
    (fun p => (skillSalaryTokens p.2).map (fun t => (p.1, t)))

/-! ## Script aggregates over the dataset -/

/-- The time-series aggregate of lines 71-72: filter to rows with a
non-missing posting year, then mean salary grouped by
(posting year, experience level). -/
def time_series (rows : List Row) : List ((Nat × String) × Option Rat) :=
  meanBy (rows.filter (fun r => decide (r.posting_year ≠ none)))
    (fun r => r.posting_year.map (fun y => (y, r.experience_level)))
    Row.salary_usd

/-- The experience-by-country aggregate of lines 144-145: restrict to the
top-10 locations, then mean salary grouped by (location, experience). -/
def exp_country (rows : List Row) : List ((String × String) × Option Rat) :=
  meanBy (rows.filter (fun r => decide (r.company_location ∈ top_locations rows)))
    (fun r => some (r.company_location, r.experience_level))
    Row.salary_usd

/-- The industry aggregate of line 193 (mean salary by industry; the
descending sort for the chart is presentation order and not modelled). -/
def industry_salary (rows : List Row) : List (String × Option Rat) :=
  meanBy rows (fun r => some r.industry) Row.salary_usd

/-- The monthly posting counts of line 137 (`groupby("posting_month").size()`;
rows with a missing posting month are dropped by groupby). -/
def monthly (rows : List Row) : List (Nat × Nat) :=
  groupCountBy rows Row.posting_month

/-- The rows feeding the deadline histogram of line 188
(`df.dropna(subset=["deadline_days"])`). -/
def deadlineHistRows (rows : List Row) : List Row :=
  rows.filter (fun r => decide (r.deadline_days ≠ none))

/-! ## Describe statistics -/

/-- The fields of `Series.describe()` (line 199).  pandas reports the
sample standard deviation; its square, the `ddof=1` variance, is kept here
so every field stays rational (`std = sqrt stdSq`). -/
structure DescribeStats where
  count : Nat
  mean : Option Rat
  stdSq : Option Rat
  min : Option Rat
  q25 : Option Rat
  q50 : Option Rat
  q75 : Option Rat
  max : Option Rat
deriving Repr, DecidableEq

/-- Linear-interpolation quantile of an ascending-sorted list, pandas'
default interpolation: at rank `h = q * (n - 1)`, interpolate between the
floor-indexed and next element. -/
def quantileSorted (xs : List Rat) (q : Rat) : Option Rat :=
  match xs with
  | [] => none
  | _ =>
    let h : Rat := q * ((xs.length : Rat) - 1)
    let i : Nat := h.floor.toNat
    match xs[i]?, xs[i + 1]? with
    | some a, some b => some (a + (h - (h.floor : Rat)) * (b - a))
    | some a, none => some a
    | none, _ => none

/-- Model of `Series.describe()` over a column of optional values: every
statistic is computed over exactly the non-missing entries; an empty
remainder yields missing statistics, and the standard deviation of a
single value is missing (`ddof=1`). -/
def describeO (l : List (Option Rat)) : DescribeStats :=
  let xs := l.filterMap id
  let n := xs.length
  let sorted := List.insertionSort (fun a b : Rat => a ≤ b) xs
  let mean : Option Rat := if xs = [] then none else some (xs.sum / (n : Rat))
  { count := n
    mean := mean
    stdSq :=
      match mean with
      | some mu =>
        if 2 ≤ n then some ((xs.map (fun x => (x - mu) ^ 2)).sum / ((n : Rat) - 1))
        else none
      | none => none
    min := sorted.head?
    q25 := quantileSorted sorted (1 / 4)
    q50 := quantileSorted sorted (1 / 2)
    q75 := quantileSorted sorted (3 / 4)
    max := sorted.getLast? }

/-- The salary summary of line 199 (`df["salary_usd"].describe()`). -/
def stats (rows : List Row) : DescribeStats :=
  describeO (rows.map Row.salary_usd)

/-! ## Concrete example inputs

Small rows used to instantiate the universally quantified theorems at
concrete inputs. -/

/-- A raw row whose salary and deadline cells are unparseable. -/
def exRawBad : RawRow :=
  { job_title := "Data Scientist", company_location := "US",
    experience_level := "SE", industry := "Tech",
    required_skills := some "Python, SQL", salary_usd := some "N/A",
    posting_date := some "2024-01-01", application_deadline := some "soon" }

/-- A raw row with all cells parseable. -/
def exRawGood : RawRow :=
  { job_title := "Data Scientist", company_location := "US",
    experience_level := "SE", industry := "Tech",
    required_skills := some "Python, SQL", salary_usd := some "52000",
    posting_date := some "2024-01-01", application_deadline := some "2024-01-31" }

/-- A typed row with a present salary of 60000. -/
def exRow60k : Row :=
  { job_title := "DS", company_location := "US", experience_level := "SE",
    industry := "Tech", required_skills := some "Python, SQL",
    salary_usd := some 60000, posting_date := none, application_deadline := none,
    posting_year := none, posting_month := none, deadline_days := none }

/-- A raw row whose posting-date cell is unparseable. -/
def exRawBadDate : RawRow :=
  { exRawBad with posting_date := some "later" }

/-- A typed row with a present deadline-span value. -/
def exRowDeadline : Row :=
  { job_title := "DS", company_location := "US", experience_level := "SE",
    industry := "Tech", required_skills := none,
    salary_usd := some 60000, posting_date := none, application_deadline := none,
    posting_year := none, posting_month := none, deadline_days := some 30 }

/-- A typed row with a missing salary. -/
def exRowNoSal : Row :=
  { job_title := "ML", company_location := "DE", experience_level := "EN",
    industry := "Media", required_skills := none,
    salary_usd := none, posting_date := none, application_deadline := none,
    posting_year := none, posting_month := none, deadline_days := none }

/-! ## Helper lemmas -/

theorem mem_distincts {α : Type} [DecidableEq α] {l : List α} {a : α} :
    a ∈ distincts l ↔ a ∈ l := by
  induction l with
  | nil => simp [distincts]
  | cons x xs ih =>
    simp only [distincts, List.mem_cons, List.mem_filter, ih, decide_eq_true_eq]
    by_cases hax : a = x <;> simp [hax]

theorem nodup_distincts {α : Type} [DecidableEq α] (l : List α) :
    (distincts l).Nodup := by
  induction l with
  | nil => simp [distincts]
  | cons x xs ih =>
    refine List.Nodup.cons ?_ (List.Nodup.filter _ ih)
    intro hmem
    simp [List.mem_filter] at hmem

theorem filter_ne_swap {α : Type} [DecidableEq α] (x z : α) (l : List α) :
    (l.filter (fun y => decide (y ≠ z))).filter (fun y => decide (y ≠ x)) =
    (l.filter (fun y => decide (y ≠ x))).filter (fun y => decide (y ≠ z)) := by
  rw [List.filter_filter, List.filter_filter]
  congr 1
  funext y
  exact Bool.and_comm _ _

theorem filter_ne_distincts_mid {α : Type} [DecidableEq α] (x : α) :
    ∀ (m₁ m₂ : List α),
      (distincts (m₁ ++ x :: m₂)).filter (fun y => decide (y ≠ x)) =
      (distincts (m₁ ++ m₂)).filter (fun y => decide (y ≠ x)) := by
  intro m₁
  induction m₁ with
  | nil =>
    intro m₂
    simp only [List.nil_append, distincts, List.filter_cons]
    rw [if_neg (by simp)]
    induction distincts m₂ with
    | nil => simp
    | cons c l ihl =>
      by_cases hc : c = x <;> simp [List.filter_cons, hc, ihl]
  | cons z m₁ ih =>
    intro m₂
    simp only [List.cons_append, distincts, List.filter_cons, List.append_eq]
    by_cases hz : z = x
    · rw [if_neg (by simp [hz]), filter_ne_swap, ih, ← filter_ne_swap]
      simp [hz]
    · rw [if_pos (by simpa using hz), filter_ne_swap, ih, ← filter_ne_swap]
      simp [hz]

theorem distincts_append_dup {α : Type} [DecidableEq α] :
    ∀ (l₁ l₂ : List α) (a : α), a ∈ l₁ →
      distincts (l₁ ++ a :: l₂) = distincts (l₁ ++ l₂) := by
  intro l₁
  induction l₁ with
  | nil => intro l₂ a h; cases h
  | cons x l₁ ih =>
    intro l₂ a hmem
    simp only [List.cons_append, distincts, List.append_eq]
    by_cases hax : a = x
    · subst hax
      rw [filter_ne_distincts_mid]
    · have hmem' : a ∈ l₁ := by
        rcases List.mem_cons.mp hmem with h' | h'
        · exact absurd h' hax
        · exact h'
      rw [ih l₂ a hmem']

theorem le_foldl_max (xs : List Rat) (a : Rat) : a ≤ xs.foldl max a := by
  induction xs generalizing a with
  | nil => exact le_refl a
  | cons x xs ih =>
    exact le_trans (le_max_left a x) (ih (max a x))

theorem mem_le_foldl_max (xs : List Rat) (a x : Rat) (hx : x ∈ xs) :
    x ≤ xs.foldl max a := by
  induction xs generalizing a with
  | nil => cases hx
  | cons y ys ih =>
    rcases List.mem_cons.mp hx with rfl | h
    · exact le_trans (le_max_right a x) (le_foldl_max ys (max a x))
    · exact ih (max a y) h

theorem foldl_max_mem (xs : List Rat) (a : Rat) : xs.foldl max a ∈ a :: xs := by
  induction xs generalizing a with
  | nil => simp
  | cons y ys ih =>
    have := ih (max a y)
    rcases List.mem_cons.mp this with h | h
    · rcases max_choice a y with h' | h'
      · rw [List.foldl_cons, h, h']; simp
      · rw [List.foldl_cons, h, h']; simp
    · simp [List.foldl_cons]
      right; right; exact h

theorem listMax?_ge {l : List Rat} {m : Rat} (h : listMax? l = some m) :
    ∀ x ∈ l, x ≤ m := by
  cases l with
  | nil => simp [listMax?] at h
  | cons y ys =>
    simp only [listMax?, Option.some.injEq] at h
    intro x hx
    rcases List.mem_cons.mp hx with rfl | hmem
    · rw [← h]; exact le_foldl_max ys x
    · rw [← h]; exact mem_le_foldl_max ys y x hmem

theorem listMax?_mem {l : List Rat} {m : Rat} (h : listMax? l = some m) : m ∈ l := by
  cases l with
  | nil => simp [listMax?] at h
  | cons y ys =>
    simp only [listMax?, Option.some.injEq] at h
    rw [← h]
    exact foldl_max_mem ys y

theorem meanOpt_insert_none (l₁ l₂ : List (Option Rat)) :
    meanOpt (l₁ ++ none :: l₂) = meanOpt (l₁ ++ l₂) := by
  simp [meanOpt, List.filterMap_append]

theorem meanOpt_eq_none_iff (l : List (Option Rat)) :
    meanOpt l = none ↔ l.filterMap id = [] := by
  unfold meanOpt
  by_cases h : l.filterMap id = [] <;> simp [h]

theorem meanOpt_eq_some {l : List (Option Rat)} {q : Rat} (h : meanOpt l = some q) :
    ∃ x, some x ∈ l := by
  unfold meanOpt at h
  by_cases he : l.filterMap id = []
  · simp [he] at h
  · rcases List.exists_mem_of_ne_nil _ he with ⟨x, hx⟩
    rcases List.mem_filterMap.mp hx with ⟨o, ho, hid⟩
    cases o with
    | none => cases hid
    | some y => exact ⟨y, ho⟩

theorem describeO_congr {l l' : List (Option Rat)}
    (h : l.filterMap id = l'.filterMap id) : describeO l = describeO l' := by
  unfold describeO
  rw [h]

theorem describeO_insert_none (l₁ l₂ : List (Option Rat)) :
    describeO (l₁ ++ none :: l₂) = describeO (l₁ ++ l₂) := by
  apply describeO_congr
  simp [List.filterMap_append]

theorem describeO_count (l : List (Option Rat)) :
    (describeO l).count = (l.filterMap id).length := rfl

theorem sorted_rankedValues {α : Type} [DecidableEq α] (vals : List α) :
    List.Sorted (vcRel vals) (rankedValues vals) :=
  List.sorted_insertionSort (vcRel vals) (distincts vals)

theorem mem_rankedValues {α : Type} [DecidableEq α] {vals : List α} {a : α} :
    a ∈ rankedValues vals ↔ a ∈ vals := by
  unfold rankedValues
  rw [List.mem_insertionSort, mem_distincts]

theorem nodup_rankedValues {α : Type} [DecidableEq α] (vals : List α) :
    (rankedValues vals).Nodup :=
  ((List.perm_insertionSort (vcRel vals) (distincts vals)).nodup_iff).mpr
    (nodup_distincts vals)

theorem head?_dropWhile_decide {α : Type} (p : α → Bool) :
    ∀ (l : List α) (c : α), (l.dropWhile p).head? = some c → p c = false := by
  intro l
  induction l with
  | nil => intro c h; cases h
  | cons a l ih =>
    intro c h
    rw [List.dropWhile_cons] at h
    by_cases hp : p a = true
    · rw [if_pos hp] at h
      exact ih c h
    · rw [if_neg hp] at h
      cases h
      simpa using hp

theorem getLast?_dropWhile_of_ne_nil {α : Type} (p : α → Bool) :
    ∀ (l : List α), l.dropWhile p ≠ [] → (l.dropWhile p).getLast? = l.getLast? := by
  intro l
  induction l with
  | nil => intro h; simp [List.dropWhile] at h
  | cons a l ih =>
    intro h
    rw [List.dropWhile_cons]
    by_cases hp : p a = true
    · rw [List.dropWhile_cons, if_pos hp] at h
      rw [if_pos hp, ih h]
      have hl : l ≠ [] := by
        intro he
        subst he
        simp [List.dropWhile] at h
      cases l with
      | nil => exact absurd rfl hl
      | cons b l => simp [List.getLast?_cons_cons]
    · rw [if_neg hp]

theorem noEdgeWS_pyStrip (s : String) : NoEdgeWS (pyStrip s) := by
  have htl : (pyStrip s).toList = stripChars s.toList := rfl
  constructor
  · intro c hc
    rw [htl] at hc
    unfold stripChars at hc
    rw [List.head?_reverse] at hc
    by_cases hB :
        (s.toList.dropWhile Char.isWhitespace).reverse.dropWhile Char.isWhitespace = []
    · rw [hB] at hc; cases hc
    · rw [getLast?_dropWhile_of_ne_nil _ _ hB, List.getLast?_reverse] at hc
      exact head?_dropWhile_decide _ _ c hc
  · intro c hc
    rw [htl] at hc
    unfold stripChars at hc
    rw [List.getLast?_reverse] at hc
    exact head?_dropWhile_decide _ _ c hc

/-! ## The claims -/

/-- C1: type coercion marks a row with an unparseable salary field as
missing-salary while keeping the row in the dataset, and every aggregate
that reduces over salary treats the missing value by exclusion: the
skip-NA mean (the reducer of every grouped mean and of the heatmap pivot)
is unchanged by a missing entry and never coerces it to zero, a
non-missing pivot cell requires a non-missing contributing row, describe
counts only the non-missing entries, and the salary filter never retains
a missing-salary row.  All operations are total functions, so no error is
raised. -/
theorem C1_unparseable_salary_is_missing :
    (∀ raw : List RawRow, (coerceTypes raw).length = raw.length) ∧
    (∀ (rr : RawRow) (s : String), rr.salary_usd = some s → parseNum s = none →
      (coerceRow rr).salary_usd = none) ∧
    (∀ l₁ l₂ : List (Option Rat), meanOpt (l₁ ++ none :: l₂) = meanOpt (l₁ ++ l₂)) ∧
    (∀ (rows : List Row) (i j : String) (q : Rat),
      (i, j, some q) ∈ heatmap_df rows →
      ∃ r ∈ top_data rows, r.job_title = i ∧ r.company_location = j ∧
        r.salary_usd ≠ none) ∧
    (∀ l : List (Option Rat), (describeO l).count = (l.filterMap id).length) ∧
    (∀ (rows : List Row) (t : Rat) (r : Row), r ∈ filterBySalaryFloor rows t →
      ∃ s, r.salary_usd = some s ∧ t ≤ s) := by
  refine ⟨?_, ?_, ?_, ?_, ?_, ?_⟩
  · intro raw
    simp [coerceTypes]
  · intro rr s hs hp
    simp [coerceRow, hs, hp]
  · exact meanOpt_insert_none
  · intro rows i j q h
    unfold heatmap_df pivotMean at h
    rw [List.mem_flatMap] at h
    obtain ⟨i', _, h2⟩ := h
    rw [List.mem_map] at h2
    obtain ⟨j', _, heq⟩ := h2
    simp only [Prod.mk.injEq] at heq
    obtain ⟨rfl, rfl, hm⟩ := heq
    obtain ⟨x, hx⟩ := meanOpt_eq_some hm
    rw [List.mem_map] at hx
    obtain ⟨r, hr, hvr⟩ := hx
    rw [List.mem_filter] at hr
    obtain ⟨hrmem, hcond⟩ := hr
    rw [decide_eq_true_eq] at hcond
    exact ⟨r, hrmem, hcond.1, hcond.2, by simp [hvr]⟩
  · exact describeO_count
  · intro rows t r h
    have hpred := List.of_mem_filter h
    cases hsal : r.salary_usd with
    | none => rw [hsal] at hpred; cases hpred
    | some s =>
      rw [hsal] at hpred
      exact ⟨s, rfl, of_decide_eq_true hpred⟩

/-- Witness for C1: its hypothesized parts instantiated on concrete rows -
the raw row with salary cell "N/A" is coerced to a missing salary, the
singleton heatmap cell traces back to its contributing row, and the row
with salary 60000 passes the 50000 floor. -/
theorem C1_unparseable_salary_is_missing_witness :
    ((coerceRow exRawBad).salary_usd = none) ∧
    (∃ r ∈ top_data [exRow60k], r.job_title = "DS" ∧ r.company_location = "US" ∧
      r.salary_usd ≠ none) ∧
    (∃ s, exRow60k.salary_usd = some s ∧ (50000 : Rat) ≤ s) := by
  refine ⟨?_, ?_, ?_⟩
  · exact C1_unparseable_salary_is_missing.2.1 exRawBad "N/A" (by decide) (by decide)
  · refine C1_unparseable_salary_is_missing.2.2.2.1 [exRow60k] "DS" "US" 60000 ?_
    have hcell : meanOpt [some (60000 : Rat)] = some 60000 := by
      simp [meanOpt]
    have hdf : heatmap_df [exRow60k] =
        [("DS", "US", meanOpt [some (60000 : Rat)])] := rfl
    rw [hdf, hcell]
    exact List.mem_singleton.mpr rfl
  · exact C1_unparseable_salary_is_missing.2.2.2.2.2 [exRow60k] 50000 exRow60k
      (by decide)

/-- C2: the salary-floor filter retains exactly the rows whose (present)
salary is at least the threshold; when the threshold strictly exceeds the
maximum present salary the filtered set is empty and the section shows the
above-all warning; and whenever the filtered set is empty the section
shows one of the two user-visible warnings, never an empty chart.  The
branch function is total, so no exception is raised. -/
theorem C2_salary_floor_spec :
    (∀ (rows : List Row) (t : Rat) (r : Row),
      r ∈ filterBySalaryFloor rows t ↔
        r ∈ rows ∧ ∃ s, r.salary_usd = some s ∧ t ≤ s) ∧
    (∀ (rows : List Row) (t m : Rat), salaryMax rows = some m → m < t →
      filterBySalaryFloor rows t = [] ∧
      salarySection rows t = SalaryOutput.aboveAll) ∧
    (∀ (rows : List Row) (t : Rat), filterBySalaryFloor rows t = [] →
      salarySection rows t = SalaryOutput.aboveAll ∨
      salarySection rows t = SalaryOutput.noJobs) := by
  have hmem : ∀ (rows : List Row) (t : Rat) (r : Row),
      r ∈ filterBySalaryFloor rows t ↔
        r ∈ rows ∧ ∃ s, r.salary_usd = some s ∧ t ≤ s := by
    intro rows t r
    rw [filterBySalaryFloor, List.mem_filter]
    constructor
    · rintro ⟨hr, hpred⟩
      refine ⟨hr, ?_⟩
      cases hsal : r.salary_usd with
      | none => rw [hsal] at hpred; cases hpred
      | some s =>
        rw [hsal] at hpred
        exact ⟨s, rfl, of_decide_eq_true hpred⟩
    · rintro ⟨hr, s, hsal, hts⟩
      refine ⟨hr, ?_⟩
      rw [hsal]
      exact decide_eq_true hts
  have hempty : ∀ (rows : List Row) (t m : Rat), salaryMax rows = some m → m < t →
      filterBySalaryFloor rows t = [] := by
    intro rows t m hmx hmt
    rcases hf : filterBySalaryFloor rows t with _ | ⟨r, rest⟩
    · rfl
    · exfalso
      have hr : r ∈ filterBySalaryFloor rows t := by rw [hf]; exact List.mem_cons_self r rest
      obtain ⟨hrows, s, hsal, hts⟩ := (hmem rows t r).mp hr
      have hsmem : s ∈ rows.filterMap Row.salary_usd :=
        List.mem_filterMap.mpr ⟨r, hrows, hsal⟩
      have hle : s ≤ m := listMax?_ge hmx s hsmem
      exact absurd (lt_of_lt_of_le hmt (le_trans hts hle)) (lt_irrefl m)
  refine ⟨hmem, ?_, ?_⟩
  · intro rows t m hmx hmt
    refine ⟨hempty rows t m hmx hmt, ?_⟩
    simp [salarySection, hmx, hmt]
  · intro rows t he
    unfold salarySection
    cases hmx : salaryMax rows with
    | none => right; simp [he]
    | some m =>
      by_cases hlt : m < t
      · left; simp [hlt]
      · right; simp [hlt, he]

/-- Witness for C2: the 60000-salary row passes the 50000 floor; a 70000
threshold above the 60000 maximum empties the filter and triggers the
above-all warning; and on the all-missing dataset the empty filtered set
yields a warning, not a chart. -/
theorem C2_salary_floor_spec_witness :
    (exRow60k ∈ [exRow60k, exRowNoSal] ∧
      ∃ s, exRow60k.salary_usd = some s ∧ (50000 : Rat) ≤ s) ∧
    (filterBySalaryFloor [exRow60k] 70000 = [] ∧
      salarySection [exRow60k] 70000 = SalaryOutput.aboveAll) ∧
    (salarySection [exRowNoSal] 50000 = SalaryOutput.aboveAll ∨
      salarySection [exRowNoSal] 50000 = SalaryOutput.noJobs) := by
  refine ⟨?_, ?_, ?_⟩
  · exact (C2_salary_floor_spec.1 [exRow60k, exRowNoSal] 50000 exRow60k).mp (by decide)
  · exact C2_salary_floor_spec.2.1 [exRow60k] 70000 60000 (by decide) (by decide)
  · exact C2_salary_floor_spec.2.2 [exRowNoSal] 50000 (by decide)

/-- C10: on a dataset whose salaries are all missing, the filter is empty
for every threshold (a comparison against a missing salary is false) and
the section takes the no-jobs branch, not the above-all branch (the
threshold-versus-maximum comparison against a missing maximum is also
false); conversely, with at least one present salary and a threshold not
above the maximum, the filtered set is non-empty and a chart is
produced. -/
theorem C10_missing_salary_branches :
    (∀ (rows : List Row) (t : Rat), (∀ r ∈ rows, r.salary_usd = none) →
      filterBySalaryFloor rows t = [] ∧
      salarySection rows t = SalaryOutput.noJobs) ∧
    (∀ (rows : List Row) (t m : Rat), salaryMax rows = some m → t ≤ m →
      filterBySalaryFloor rows t ≠ [] ∧
      salarySection rows t = SalaryOutput.chart (filterBySalaryFloor rows t)) := by
  constructor
  · intro rows t hall
    have hfil : filterBySalaryFloor rows t = [] := by
      rw [filterBySalaryFloor, List.filter_eq_nil_iff]
      intro r hr
      rw [hall r hr]
      simp
    have hmx : salaryMax rows = none := by
      rw [salaryMax, List.filterMap_eq_nil_iff.mpr hall]
      rfl
    exact ⟨hfil, by simp [salarySection, hmx, hfil]⟩
  · intro rows t m hmx htm
    have hm_mem : m ∈ rows.filterMap Row.salary_usd := listMax?_mem hmx
    obtain ⟨r, hr, hsal⟩ := List.mem_filterMap.mp hm_mem
    have hrfil : r ∈ filterBySalaryFloor rows t := by
      rw [filterBySalaryFloor, List.mem_filter, hsal]
      exact ⟨hr, decide_eq_true htm⟩
    have hne : filterBySalaryFloor rows t ≠ [] := List.ne_nil_of_mem hrfil
    refine ⟨hne, ?_⟩
    have hnlt : ¬m < t := not_lt.mpr htm
    simp [salarySection, hmx, hnlt, hne]

/-- Witness for C10: the all-missing singleton dataset takes the no-jobs
branch at threshold 50000, and the 60000-salary dataset at threshold 50000
yields a non-empty filter and a chart. -/
theorem C10_missing_salary_branches_witness :
    (filterBySalaryFloor [exRowNoSal] 50000 = [] ∧
      salarySection [exRowNoSal] 50000 = SalaryOutput.noJobs) ∧
    (filterBySalaryFloor [exRow60k] 50000 ≠ [] ∧
      salarySection [exRow60k] 50000 =
        SalaryOutput.chart (filterBySalaryFloor [exRow60k] 50000)) := by
  constructor
  · exact C10_missing_salary_branches.1 [exRowNoSal] 50000 (by decide)
  · exact C10_missing_salary_branches.2 [exRow60k] 50000 60000 (by decide) (by decide)

/-- C3: `topN` returns at most `n` values, each occurring in the input,
pairwise distinct, ordered by strictly descending occurrence count with
equal counts broken strictly in favour of the value whose first occurrence
in the input is earlier.  The statement is generic in the value sequence,
covering both `value_counts().head(n)` uses (top job titles and top
locations) and `Counter(...).most_common(15)` (top skills), all of which
are `topNVals` applied to the respective value sequence. -/
theorem C3_topN_spec {α : Type} [DecidableEq α] (vals : List α) (n : Nat) :
    (topNVals vals n).length ≤ n ∧
    (∀ v ∈ topNVals vals n, v ∈ vals) ∧
    (topNVals vals n).Nodup ∧
    List.Pairwise
      (fun a b => vals.count b < vals.count a ∨
        (vals.count a = vals.count b ∧ vals.indexOf a < vals.indexOf b))
      (topNVals vals n) := by
  have hsub : (topNVals vals n).Sublist (rankedValues vals) :=
    List.take_sublist n (rankedValues vals)
  have hnodup : (topNVals vals n).Nodup :=
    List.Nodup.sublist hsub (nodup_rankedValues vals)
  refine ⟨List.length_take_le n (rankedValues vals), ?_, hnodup, ?_⟩
  · intro v hv
    exact mem_rankedValues.mp (hsub.subset hv)
  · have hsorted : List.Pairwise (vcRel vals) (topNVals vals n) :=
      List.Pairwise.sublist hsub (sorted_rankedValues vals)
    have hcomb : List.Pairwise (fun a b => vcRel vals a b ∧ a ≠ b) (topNVals vals n) :=
      hsorted.and hnodup
    refine List.Pairwise.imp_of_mem ?_ hcomb
    intro a b ha hb hab
    obtain ⟨hrel, hne⟩ := hab
    rcases hrel with hlt | ⟨hceq, hile⟩
    · exact Or.inl hlt
    · refine Or.inr ⟨hceq, lt_of_le_of_ne hile ?_⟩
      intro hidx
      have hav : a ∈ vals := mem_rankedValues.mp (hsub.subset ha)
      have hbv : b ∈ vals := mem_rankedValues.mp (hsub.subset hb)
      exact hne ((List.indexOf_inj hav hbv).mp hidx)

/-- Witness for C3: in `["b", "a", "b", "c", "a"]` the top-2 ranking is
`["b", "a"]` (counts 2 and 2, tie broken towards the earlier first
occurrence), and both ranked values occur in the input. -/
theorem C3_topN_spec_witness :
    "b" ∈ ["b", "a", "b", "c", "a"] ∧ "a" ∈ ["b", "a", "b", "c", "a"] :=
  ⟨(C3_topN_spec ["b", "a", "b", "c", "a"] 2).2.1 "b" (by decide),
    (C3_topN_spec ["b", "a", "b", "c", "a"] 2).2.1 "a" (by decide)⟩

/-- Counterexample to C4: in the two-row dataset with rows ("a", value 1)
and ("b", value missing), group "b" has zero non-missing values, yet the
grouped mean keeps it in the result, paired with a missing value - pandas
`groupby(...).mean()` reports `NaN` for such a group instead of omitting
it, so "omitted entirely from the resulting Aggregate" fails at this
input. -/
theorem C4_counterexample :
    (∀ p ∈ [("a", some (1 : Rat)), ("b", (none : Option Rat))],
      p.1 = "b" → p.2 = none) ∧
    ("b", (none : Option Rat)) ∈
      meanBy [("a", some (1 : Rat)), ("b", (none : Option Rat))]
        (fun p : String × Option Rat => some p.1) Prod.snd := by
  exact ⟨by decide, by decide⟩

/-- C4 (amended): `meanBy` groups rows by the distinct present keys - a
group appears in the result iff some row carries its key - and computes
the mean of the value column per group ignoring missing values: inserting
a row with a missing value whose key is missing or already present leaves
the whole aggregate unchanged.  A group whose rows have zero non-missing
values is kept in the result paired with a missing value (not omitted,
and not zero-filled): its value is missing exactly when all of its rows'
values are missing. -/
theorem C4_meanBy_missing_groups {ρ κ : Type} [DecidableEq κ]
    (key : ρ → Option κ) (val : ρ → Option Rat) :
    (∀ (rows : List ρ) (k : κ),
      (∃ v, (k, v) ∈ meanBy rows key val) ↔ ∃ r ∈ rows, key r = some k) ∧
    (∀ (rows₁ rows₂ : List ρ) (r : ρ), val r = none →
      (key r = none ∨ ∃ x ∈ rows₁, key x = key r) →
      meanBy (rows₁ ++ r :: rows₂) key val = meanBy (rows₁ ++ rows₂) key val) ∧
    (∀ (rows : List ρ) (k : κ),
      (k, (none : Option Rat)) ∈ meanBy rows key val ↔
        (∃ r ∈ rows, key r = some k) ∧
        ∀ r ∈ rows, key r = some k → val r = none) := by
  refine ⟨?_, ?_, ?_⟩
  · intro rows k
    unfold meanBy
    constructor
    · rintro ⟨v, hv⟩
      rw [List.mem_map] at hv
      obtain ⟨k', hk', heq⟩ := hv
      simp only [Prod.mk.injEq] at heq
      obtain ⟨rfl, -⟩ := heq
      exact List.mem_filterMap.mp (mem_distincts.mp hk')
    · rintro ⟨r, hr, hkr⟩
      refine ⟨_, List.mem_map_of_mem _ ?_⟩
      exact mem_distincts.mpr (List.mem_filterMap.mpr ⟨r, hr, hkr⟩)
  · intro rows₁ rows₂ r hval hkey
    have hnonecase : key r = none →
        meanBy (rows₁ ++ r :: rows₂) key val = meanBy (rows₁ ++ rows₂) key val := by
      intro hnone
      unfold meanBy
      have hD : List.filterMap key (rows₁ ++ r :: rows₂) =
          List.filterMap key (rows₁ ++ rows₂) := by
        simp [List.filterMap_append, List.filterMap_cons, hnone]
      rw [hD]
      apply List.map_congr_left
      intro k _
      have hpred : (decide (key r = some k)) = false := by simp [hnone]
      simp [List.filter_append, List.filter_cons, hpred]
    rcases hkey with hnone | ⟨x, hx, hxk⟩
    · exact hnonecase hnone
    · cases hkr : key r with
      | none => exact hnonecase hkr
      | some k₀ =>
        unfold meanBy
        have hD : distincts (List.filterMap key (rows₁ ++ r :: rows₂)) =
            distincts (List.filterMap key (rows₁ ++ rows₂)) := by
          rw [List.filterMap_append, List.filterMap_append, List.filterMap_cons, hkr]
          exact distincts_append_dup _ _ k₀
            (List.mem_filterMap.mpr ⟨x, hx, by rw [hxk, hkr]⟩)
        rw [hD]
        apply List.map_congr_left
        intro k _
        by_cases hkk : k₀ = k
        · subst hkk
          have hpred : (decide (key r = some k₀)) = true := by simp [hkr]
          simp only [List.filter_append, List.filter_cons, hpred, if_true]
          congr 1
          rw [List.map_append, List.map_cons, hval, List.map_append]
          exact meanOpt_insert_none _ _
        · have hpred : (decide (key r = some k)) = false := by
            simp [hkr]
            intro he
            exact absurd he hkk
          simp [List.filter_append, List.filter_cons, hpred]
  · intro rows k
    unfold meanBy
    rw [List.mem_map]
    constructor
    · rintro ⟨k', hk', heq⟩
      have hfst : k' = k := congrArg Prod.fst heq
      have hsnd := congrArg Prod.snd heq
      rw [hfst] at hk' hsnd
      refine ⟨List.mem_filterMap.mp (mem_distincts.mp hk'), ?_⟩
      intro r hr hkr
      rw [meanOpt_eq_none_iff] at hsnd
      have hmem : val r ∈
          List.map val (List.filter (fun x => decide (key x = some k)) rows) :=
        List.mem_map_of_mem val (List.mem_filter.mpr ⟨hr, decide_eq_true hkr⟩)
      have hnone := List.filterMap_eq_nil_iff.mp hsnd (val r) hmem
      simpa using hnone
    · rintro ⟨⟨r, hr, hkr⟩, hall⟩
      refine ⟨k, mem_distincts.mpr (List.mem_filterMap.mpr ⟨r, hr, hkr⟩), ?_⟩
      have hnone : meanOpt
          (List.map val (List.filter (fun x => decide (key x = some k)) rows)) =
          none := by
        rw [meanOpt_eq_none_iff, List.filterMap_eq_nil_iff]
        intro o ho
        rw [List.mem_map] at ho
        obtain ⟨x, hx, rfl⟩ := ho
        rw [List.mem_filter] at hx
        have := hall x hx.1 (of_decide_eq_true hx.2)
        simpa using this
      rw [hnone]

/-- Witness for C4 (amended): appending the row ("a", missing) to the
dataset whose only row is ("a", 1) leaves the grouped mean aggregate
unchanged - the missing value is ignored inside its group. -/
theorem C4_meanBy_missing_groups_witness :
    meanBy [("a", some (1 : Rat)), ("a", (none : Option Rat))]
      (fun p : String × Option Rat => some p.1) Prod.snd =
    meanBy [("a", some (1 : Rat))]
      (fun p : String × Option Rat => some p.1) Prod.snd :=
  (C4_meanBy_missing_groups (fun p : String × Option Rat => some p.1) Prod.snd).2.1
    [("a", some 1)] [] ("a", none) rfl (Or.inr (by decide))

/-- Counterexample to C5: the salary-by-skill tokenization of line 96
(`[s.strip() for s in x.split(",")]`) does not drop tokens that are empty
after trimming - on "Python,,SQL" it produces three tokens with an empty
one in the middle - so "drops tokens that are empty after trimming ...
holds for both places" fails at this input. -/
theorem C5_counterexample :
    skillSalaryTokens "Python,,SQL" = ["Python", "", "SQL"] ∧
    "" ∈ skillSalaryTokens "Python,,SQL" :=
  ⟨by decide, by decide⟩

/-- C5 (amended): both tokenizations split the delimited field at the
delimiter and trim surrounding whitespace from every token; the
skill-frequency tokenization (lines 87-88) additionally drops tokens that
are empty after trimming, while the salary-by-skill tokenization (line
96) keeps empty tokens.  On the example row with skills "Python, SQL"
both sites yield exactly the two values "Python" and "SQL". -/
theorem C5_explode_tokenization :
    (∀ (s t : String), t ∈ skillFreqTokens s → t ≠ "" ∧ NoEdgeWS t) ∧
    (∀ (s t : String), t ∈ skillSalaryTokens s → NoEdgeWS t) ∧
    skillFreqTokens "Python, SQL" = ["Python", "SQL"] ∧
    skillSalaryTokens "Python, SQL" = ["Python", "SQL"] ∧
    all_skills [exRow60k] = ["Python", "SQL"] ∧
    exploded_skills [exRow60k] = [(60000, "Python"), (60000, "SQL")] := by
  refine ⟨?_, ?_, by decide, by decide, by decide, by decide⟩
  · intro s t ht
    have hne : t ≠ "" := by
      have := List.of_mem_filter ht
      simpa using this
    refine ⟨hne, ?_⟩
    have hmem := List.mem_of_mem_filter ht
    rw [List.mem_map] at hmem
    obtain ⟨u, hu, rfl⟩ := hmem
    exact noEdgeWS_pyStrip _
  · intro s t ht
    rw [skillSalaryTokens, List.mem_map] at ht
    obtain ⟨u, hu, rfl⟩ := ht
    exact noEdgeWS_pyStrip _

/-- Witness for C5 (amended): the tokens of "Python, SQL" are non-empty
and carry no surrounding whitespace. -/
theorem C5_explode_tokenization_witness :
    ("Python" ≠ "" ∧ NoEdgeWS "Python") ∧ NoEdgeWS "SQL" :=
  ⟨C5_explode_tokenization.1 "Python, SQL" "Python" (by decide),
    C5_explode_tokenization.2.1 "Python, SQL" "SQL" (by decide)⟩

/-- C6: the derived fields are pure per-row functions of the ingested row
- deferring the deadline-span derivation to the deadline section computes
exactly what a single at-ingestion pass would, so each derived value is
computed once per row; a missing posting date yields missing posting year,
posting month and deadline span, a missing application deadline yields a
missing deadline span; and rows whose derived field is missing are
excluded from grouping on it (the monthly grouping ignores such a row
entirely, and the deadline histogram keeps only rows with a present
span). -/
theorem C6_derived_fields :
    (∀ raw : List RawRow, addDeadlineDays (coerceTypes raw) = raw.map ingestFullRow) ∧
    (∀ rr : RawRow, rr.posting_date.bind parseDate = none →
      (coerceRow rr).posting_year = none ∧ (coerceRow rr).posting_month = none ∧
      deadlineSpan (coerceRow rr) = none) ∧
    (∀ rr : RawRow, rr.application_deadline.bind parseDate = none →
      deadlineSpan (coerceRow rr) = none) ∧
    (∀ (rows₁ rows₂ : List Row) (r : Row), r.posting_month = none →
      monthly (rows₁ ++ r :: rows₂) = monthly (rows₁ ++ rows₂)) ∧
    (∀ (rows : List Row) (r : Row), r ∈ deadlineHistRows rows →
      r.deadline_days ≠ none) := by
  refine ⟨?_, ?_, ?_, ?_, ?_⟩
  · intro raw
    rw [addDeadlineDays, coerceTypes, List.map_map]
    rfl
  · intro rr h
    refine ⟨by simp [coerceRow, h], by simp [coerceRow, h], ?_⟩
    rcases happ : rr.application_deadline.bind parseDate with _ | d2 <;>
      simp [deadlineSpan, coerceRow, h, happ]
  · intro rr h
    simp [deadlineSpan, coerceRow, h]
  · intro rows₁ rows₂ r h
    unfold monthly groupCountBy
    have hD : List.filterMap Row.posting_month (rows₁ ++ r :: rows₂) =
        List.filterMap Row.posting_month (rows₁ ++ rows₂) := by
      simp [List.filterMap_append, List.filterMap_cons, h]
    rw [hD]
    apply List.map_congr_left
    intro k _
    have hpred : (decide (r.posting_month = some k)) = false := by simp [h]
    simp [List.filter_append, List.filter_cons, hpred]
  · intro rows r hr
    rw [deadlineHistRows, List.mem_filter] at hr
    exact of_decide_eq_true hr.2

/-- Witness for C6: the raw row with unparseable posting date gets missing
year, month and span; the raw row with unparseable deadline gets a
missing span; a row with a missing posting month does not affect the
monthly counts; and the example row kept by the deadline histogram has a
present span. -/
theorem C6_derived_fields_witness :
    ((coerceRow exRawBadDate).posting_year = none ∧
      (coerceRow exRawBadDate).posting_month = none ∧
      deadlineSpan (coerceRow exRawBadDate) = none) ∧
    deadlineSpan (coerceRow exRawBad) = none ∧
    monthly [exRow60k, exRowNoSal] = monthly [exRow60k] ∧
    exRowDeadline.deadline_days ≠ none :=
  ⟨C6_derived_fields.2.1 exRawBadDate (by decide),
    C6_derived_fields.2.2.1 exRawBad (by decide),
    C6_derived_fields.2.2.2.1 [exRow60k] [] exRowNoSal (by decide),
    C6_derived_fields.2.2.2.2 [exRowDeadline] exRowDeadline (by decide)⟩

/-- C7: describe statistics are computed over exactly the non-missing
values of the column - a missing entry anywhere in the column changes
nothing, and the count is the number of non-missing entries - and on the
column [10, 20, 30] describe yields count 3, mean 20, min 10, max 30 and
median (the 50 percent quantile) 20. -/
theorem C7_describe_spec :
    (∀ l₁ l₂ : List (Option Rat),
      describeO (l₁ ++ none :: l₂) = describeO (l₁ ++ l₂)) ∧
    (∀ l : List (Option Rat), (describeO l).count = (l.filterMap id).length) ∧
    (describeO [some 10, some 20, some 30]).count = 3 ∧
    (describeO [some 10, some 20, some 30]).mean = some 20 ∧
    (describeO [some 10, some 20, some 30]).min = some 10 ∧
    (describeO [some 10, some 20, some 30]).max = some 30 ∧
    (describeO [some 10, some 20, some 30]).q50 = some 20 := by
  refine ⟨describeO_insert_none, describeO_count, rfl, ?_, ?_, ?_, ?_⟩
  · simp [describeO, meanOpt]
    norm_num
  · norm_num [describeO, List.insertionSort, List.orderedInsert]
  · norm_num [describeO, List.insertionSort, List.orderedInsert]
  · norm_num [describeO, quantileSorted, List.insertionSort, List.orderedInsert,
      (show Rat.floor 1 = 1 from rfl)]

theorem meanBy_addDeadlineDays {κ : Type} [DecidableEq κ] (rows : List Row)
    (key : Row → Option κ) (val : Row → Option Rat)
    (hk : ∀ r, key { r with deadline_days := deadlineSpan r } = key r)
    (hv : ∀ r, val { r with deadline_days := deadlineSpan r } = val r) :
    meanBy (addDeadlineDays rows) key val = meanBy rows key val := by
  unfold addDeadlineDays meanBy
  simp only [List.filterMap_map, List.filter_map, List.map_map, Function.comp_def,
    hk, hv]

theorem top_locations_addDeadlineDays (rows : List Row) :
    top_locations (addDeadlineDays rows) = top_locations rows := by
  unfold top_locations addDeadlineDays
  rw [List.map_map]
  rfl

theorem filter_addDeadlineDays (rows : List Row) (p : Row → Bool)
    (hp : ∀ r, p { r with deadline_days := deadlineSpan r } = p r) :
    (addDeadlineDays rows).filter p = addDeadlineDays (rows.filter p) := by
  unfold addDeadlineDays
  rw [List.filter_map]
  congr 1
  apply List.filter_congr
  intro r _
  exact hp r

/-- C8: each per-section aggregate is a stateless function of the base
dataset.  The only mid-run change of state in the script is the
deadline-days column write (line 187); every aggregate, recomputed on the
dataset after that write, is bit-identical to its value on the base
dataset, so each is re-derivable from the base dataset alone and depends
on no hidden state from a previous computation.  (`meanBy` itself is a
pure function, so recomputing it on an unchanged input is identical by
construction; the grouped means below are its three instantiations in the
script.) -/
theorem C8_aggregates_stateless :
    (∀ rows : List Row, time_series (addDeadlineDays rows) = time_series rows) ∧
    (∀ rows : List Row, exp_country (addDeadlineDays rows) = exp_country rows) ∧
    (∀ rows : List Row, industry_salary (addDeadlineDays rows) = industry_salary rows) ∧
    (∀ rows : List Row, monthly (addDeadlineDays rows) = monthly rows) ∧
    (∀ rows : List Row, stats (addDeadlineDays rows) = stats rows) ∧
    (∀ rows : List Row, top_titles (addDeadlineDays rows) = top_titles rows ∧
      top_locations (addDeadlineDays rows) = top_locations rows) := by
  refine ⟨?_, ?_, ?_, ?_, ?_, ?_⟩
  · intro rows
    unfold time_series
    rw [filter_addDeadlineDays rows (fun r => decide (r.posting_year ≠ none))
        (fun r => rfl),
      meanBy_addDeadlineDays (rows.filter (fun r => decide (r.posting_year ≠ none)))
        (fun r => r.posting_year.map (fun y => (y, r.experience_level)))
        Row.salary_usd (fun r => rfl) (fun r => rfl)]
  · intro rows
    unfold exp_country
    rw [top_locations_addDeadlineDays,
      filter_addDeadlineDays rows
        (fun r => decide (r.company_location ∈ top_locations rows)) (fun r => rfl),
      meanBy_addDeadlineDays
        (rows.filter (fun r => decide (r.company_location ∈ top_locations rows)))
        (fun r => some (r.company_location, r.experience_level))
        Row.salary_usd (fun r => rfl) (fun r => rfl)]
  · intro rows
    unfold industry_salary
    rw [meanBy_addDeadlineDays rows (fun r => some r.industry)
        Row.salary_usd (fun r => rfl) (fun r => rfl)]
  · intro rows
    unfold monthly groupCountBy addDeadlineDays
    simp only [List.filterMap_map, List.filter_map, List.map_map, List.length_map,
      Function.comp_def]
  · intro rows
    unfold stats addDeadlineDays
    rw [List.map_map]
    rfl
  · intro rows
    constructor
    · unfold top_titles addDeadlineDays
      rw [List.map_map]
      rfl
    · exact top_locations_addDeadlineDays rows

/-- Counterexample to C9: the dataset observed after the deadline section
differs from the dataset produced by the initial coercion/derivation pass
- line 187 writes the derived deadline-days column back into the base
dataset mid-run, as seen on a one-row dataset with parseable dates. -/
theorem C9_counterexample :
    addDeadlineDays (coerceTypes [exRawGood]) ≠ coerceTypes [exRawGood] := by
  decide

/-- C9 (amended): the base dataset is the single source of truth up to
one exception: the deadline-days derivation of line 187 writes that one
derived column back into the base dataset mid-run.  The write changes
nothing else - clearing the deadline-days column of the written dataset
recovers the ingestion dataset exactly, and the row count is preserved -
and every section before the write observes the coercion-pass dataset, in
which the deadline-days column is missing on every row. -/
theorem C9_base_dataset_projection :
    (∀ rows : List Row,
      (addDeadlineDays rows).map (fun r => { r with deadline_days := none }) =
        rows.map (fun r => { r with deadline_days := none })) ∧
    (∀ rows : List Row, (addDeadlineDays rows).length = rows.length) ∧
    (∀ raw : List RawRow, ∀ r ∈ coerceTypes raw, r.deadline_days = none) := by
  refine ⟨?_, ?_, ?_⟩
  · intro rows
    unfold addDeadlineDays
    rw [List.map_map]
    rfl
  · intro rows
    unfold addDeadlineDays
    exact List.length_map rows _
  · intro raw r hr
    rw [coerceTypes, List.mem_map] at hr
    obtain ⟨rr, _, rfl⟩ := hr
    rfl

/-- Witness for C9 (amended): the coerced example row, observed before the
deadline write, carries no deadline-days value. -/
theorem C9_base_dataset_projection_witness :
    (coerceRow exRawGood).deadline_days = none :=
  C9_base_dataset_projection.2.2 [exRawGood] (coerceRow exRawGood) (by decide)

end AIJobs
